import Mathlib

/-!
Verification of the endpoint-discovery core of a service-mesh sidecar proxy.

The development shallowly embeds the Rust sources:
  src/control/destination/resolution.rs  (Cache, Resolution::poll, pb decoding)
  src/proxy/resolve.rs                   (Discover, MakeStream, MakeFuture)
  src/dns/mod.rs                         (Suffix::contains, resolve_all_ips)
  src/app/tap.rs                         (tap authorization)
Pure functions become Lean functions; stateful poll loops become explicit
state-passing functions; machine integers are `Nat` with explicit `% 2^w`
where narrowing matters; fallible code returns `Option`/`Except`.
-/

namespace Linkerd

/-- Model of `std::net::IpAddr`: the decoded octet lists (4 octets for V4,
16 octets for V6), each octet a `Nat` below 256. -/
inductive IpAddr : Type
  | v4 (octets : List Nat)
  | v6 (octets : List Nat)
deriving DecidableEq, Repr

/-- Model of `std::net::SocketAddr`: an IP address and a 16-bit port. -/
structure SocketAddr : Type where
  ip : IpAddr
  port : Nat
deriving DecidableEq, Repr

/-- Model of `ProtocolHint` from `control::destination`. -/
inductive ProtocolHint : Type
  | Unknown
  | Http2
deriving DecidableEq, Repr

/-- Model of `control::destination::Metadata`: a label mapping (an ordered
association list, mirroring `IndexMap<String, String>`), a protocol hint, an
optional TLS identity name, and a weight. -/
structure Metadata : Type where
  labels : List (String × String)
  protocol_hint : ProtocolHint
  identity : Option String
  weight : Nat
deriving DecidableEq, Repr

/-- Model of `proxy::resolve::Update<T>` (resolution.rs uses
`Update<Metadata>`). -/
inductive Update (T : Type) : Type
  | Add (addr : SocketAddr) (meta : T)
  | Remove (addr : SocketAddr)
  | NoEndpoints
deriving DecidableEq, Repr

/-- Model of `indexmap::IndexSet::insert`: insertion-ordered, idempotent
(an address already present keeps its position and the set is unchanged). -/
def insertSet (s : List SocketAddr) (a : SocketAddr) : List SocketAddr :=
  if a ∈ s then s else s ++ [a]

/-- Model of `Cache` from resolution.rs: a FIFO `queue` of single-endpoint
updates (`VecDeque`, front at the list head) and the insertion-ordered live
address set `addrs` (`IndexSet`). -/
structure Cache : Type where
  queue : List (Update Metadata)
  addrs : List SocketAddr
deriving DecidableEq, Repr

/-- Model of `Cache::next_update`: `queue.pop_front()`. -/
def Cache.next_update (c : Cache) : Option (Update Metadata) × Cache :=
  match c.queue with
  | [] => (none, c)
  | u :: rest => (some u, { c with queue := rest })

/-- Model of `Cache::add`: for each `(addr, meta)` push `Add(addr, meta)` to
the back of the queue and insert `addr` into the live set. -/
def Cache.add (c : Cache) (l : List (SocketAddr × Metadata)) : Cache :=
  l.foldl
    (fun c am =>
      { queue := c.queue ++ [Update.Add am.1 am.2],
        addrs := insertSet c.addrs am.1 })
    c

/-- Model of `indexmap::IndexSet::remove`: a swap remove — the then-last
element is moved into the removed element's slot and the back is popped; an
absent address leaves the set unchanged. -/
def swapRemoveSet (s : List SocketAddr) (a : SocketAddr) : List SocketAddr :=
  match s.findIdx? (fun x => decide (x = a)) with
  | none => s
  | some i =>
    match s.getLast? with
    | none => s
    | some last => (s.set i last).dropLast

/-- Model of `Cache::remove`: for each `addr` push `Remove(addr)` to the back
of the queue (unconditionally) and take `addr` out of the live set
(`IndexSet::remove`, a swap remove). -/
def Cache.remove (c : Cache) (l : List SocketAddr) : Cache :=
  l.foldl
    (fun c addr =>
      { queue := c.queue ++ [Update.Remove addr],
        addrs := swapRemoveSet c.addrs addr })
    c

/-- Model of `Cache::no_endpoints`: `queue.clear()`, `push_front(NoEndpoints)`,
then `push_back(Remove(addr))` for each address drained from the live set. -/
def Cache.no_endpoints (c : Cache) : Cache :=
  let q : List (Update Metadata) := []
  let q := Update.NoEndpoints :: q
  let q := q ++ c.addrs.map Update.Remove
  { queue := q, addrs := [] }

/-- Repeatedly calling `next_update` until the queue is empty yields the
queued updates in order; this is what the consumer observes. -/
def Cache.drain (c : Cache) : List (Update Metadata) :=
  c.queue

/-! ## DNS names and suffix containment (src/dns/mod.rs) -/

/-- Model of Rust `str::ends_with` on strings viewed as character lists. -/
def strEndsWith (s sfx : List Char) : Bool :=
  List.isSuffixOf sfx s

/-- Modelled from the spec: `Name::without_trailing_dot` (src/dns/name.rs is
not among the given sources; the spec speaks of "the name (with trailing dot
stripped)"). The model strips one trailing dot when present. -/
def withoutTrailingDot (s : String) : List Char :=
  if s.data.getLast? = some '.' then s.data.dropLast else s.data

/-- Model of `dns::Suffix`: either the root suffix or a name. -/
inductive Suffix : Type
  | Root
  | Name (n : String)
deriving DecidableEq, Repr

/-- Model of `Suffix::contains` (src/dns/mod.rs lines 156-174): root contains
everything; otherwise strip trailing dots from both, require the name to end
with the suffix and either equal lengths or the part of the name before the
match (`split_at`) to end with a dot. -/
def Suffix.contains : Suffix → String → Bool
  | Suffix.Root, _ => true
  | Suffix.Name sfxStr, nm =>
    let n := withoutTrailingDot nm
    let s := withoutTrailingDot sfxStr
    strEndsWith n s &&
      (n.length == s.length ||
        strEndsWith (n.take (n.length - s.length)) ['.'])

/-- The containment predicate as worded by the spec: true iff the suffix is
root, or the name (trailing dot stripped) ends with the suffix (trailing dot
stripped) and additionally either the two stripped strings have equal length
or the character of the name immediately preceding the matched suffix is a
dot. -/
def specContains (sfx : Suffix) (nm : String) : Prop :=
  match sfx with
  | Suffix.Root => True
  | Suffix.Name sfxStr =>
    let n := withoutTrailingDot nm
    let s := withoutTrailingDot sfxStr
    s <:+ n ∧
      (n.length = s.length ∨ n.get? (n.length - s.length - 1) = some '.')

/-! ## Wire address decoding (src/control/destination/resolution.rs) -/

/-- Model of the protobuf `IPv6` message: two 64-bit halves. -/
structure IPv6 : Type where
  first : Nat
  last : Nat
deriving DecidableEq, Repr

/-- Model of the protobuf `ip_address::Ip` oneof. -/
inductive Ip : Type
  | Ipv4 (word : Nat)
  | Ipv6 (v6 : IPv6)
deriving DecidableEq, Repr

/-- Model of the protobuf `IpAddress` message (the outer IP envelope). -/
structure IpAddress : Type where
  ip : Option Ip
deriving DecidableEq, Repr

/-- Model of the protobuf `TcpAddress` message: an optional IP envelope and a
32-bit port field. -/
structure TcpAddress : Type where
  ip : Option IpAddress
  port : Nat
deriving DecidableEq, Repr

/-- Model of `pb_to_sock_addr` (resolution.rs lines 300-350): a missing outer
envelope or missing inner variant yields `None`; an `Ipv4(u32)` word is split
into its four big-endian octets (`Ipv4Addr::from(u32)`); an `Ipv6{first,last}`
is laid out as the big-endian octets of `first` followed by those of `last`;
the port is narrowed with `as u16`, i.e. reduced modulo 2^16. -/
def pb_to_sock_addr (pb : TcpAddress) : Option SocketAddr :=
  match pb.ip with
  | some ipenv =>
    match ipenv.ip with
    | some (Ip.Ipv4 w) =>
      some { ip := IpAddr.v4 [w >>> 24 % 256, w >>> 16 % 256, w >>> 8 % 256, w % 256],
             port := pb.port % 65536 }
    | some (Ip.Ipv6 v6) =>
      let octets : List Nat :=
        [v6.first >>> 56 % 256, v6.first >>> 48 % 256, v6.first >>> 40 % 256,
         v6.first >>> 32 % 256, v6.first >>> 24 % 256, v6.first >>> 16 % 256,
         v6.first >>> 8 % 256, v6.first % 256,
         v6.last >>> 56 % 256, v6.last >>> 48 % 256, v6.last >>> 40 % 256,
         v6.last >>> 32 % 256, v6.last >>> 24 % 256, v6.last >>> 16 % 256,
         v6.last >>> 8 % 256, v6.last % 256]
      some { ip := IpAddr.v6 octets, port := pb.port % 65536 }
    | none => none
  | none => none

/-! ## Label merging (pb_to_addr_meta, resolution.rs lines 250-285) -/

/-- Computable byte-lexicographic order on character lists, the model of
Rust's `Ord for String` (`k0.cmp(k1)` in `sort_by`). -/
def lexLe : List Char → List Char → Bool
  | [], _ => true
  | _ :: _, [] => false
  | a :: as, b :: bs => if a < b then true else if b < a then false else lexLe as bs

/-- Key comparison used by the label sort: compare the key strings. -/
def pairLe (p q : String × String) : Bool :=
  lexLe p.1.data q.1.data

/-- Model of `IndexMap::insert`: if the key is present, replace its value in
place (the entry keeps its position); otherwise append the pair. -/
def imInsert (m : List (String × String)) (kv : String × String) : List (String × String) :=
  if m.any (fun p => p.1 == kv.1) then
    m.map (fun p => if p.1 == kv.1 then (p.1, kv.2) else p)
  else m ++ [kv]

/-- Folding a pair list into an initially empty `IndexMap` via `insert`. -/
def imInsertAll (t : List (String × String)) : List (String × String) :=
  t.foldl imInsert []

/-- Model of the label computation in `pb_to_addr_meta`: chain the set-level
labels with the endpoint's own labels (the two lists stand for the iteration
sequences of the corresponding `HashMap`s, whose order is arbitrary), sort the
pairs by key with a stable merge sort (`slice::sort_by` is stable), and insert
them in order into an `IndexMap`. -/
def pb_to_addr_meta_labels (set_labels metric_labels : List (String × String)) :
    List (String × String) :=
  let t := (set_labels ++ metric_labels).mergeSort pairLe
  imInsertAll t

/-! ## resolve_all_ips error mapping (src/dns/mod.rs lines 201-224) -/

/-- Model of `trust_dns_resolver::error::ResolveErrorKind`, restricted to the
distinction the code makes: a negative answer (`NoRecordsFound`, carrying the
negative-cache validity) versus any other kind (abstracted by a tag).
Instants are modelled as `Nat`. -/
inductive ResolveErrorKind : Type
  | NoRecordsFound (valid_until : Option Nat)
  | Other (tag : Nat)
deriving DecidableEq, Repr

/-- Model of `dns::Response`. -/
inductive Response (α : Type) : Type
  | Exists (list : α)
  | DoesNotExist (retry_after : Option Nat)
deriving DecidableEq, Repr

/-- Model of the result-mapping closure of `Resolver::resolve_all_ips`: a
successful lookup becomes `Exists`; a `NoRecordsFound` error becomes
`Ok(DoesNotExist { retry_after: valid_until })`; any other error is returned
unchanged. (The `Delay` that gates when the query is issued is real time and
is not part of this value-level model.) -/
def resolve_all_ips_result {α : Type} (result : Except ResolveErrorKind α) :
    Except ResolveErrorKind (Response α) :=
  match result with
  | Except.ok lookup => Except.ok (Response.Exists lookup)
  | Except.error e =>
    match e with
    | ResolveErrorKind.NoRecordsFound valid_until =>
      Except.ok (Response.DoesNotExist valid_until)
    | e => Except.error e

/-! ## Tap authorization (src/app/tap.rs lines 65-117) -/

/-- Model of `Conditional<T, Reason>` from the proxy: either a value or a
reason for its absence (reasons abstracted as `Nat`). -/
inductive Conditional (α : Type) : Type
  | Csome (a : α)
  | Cnone (reason : Nat)
deriving DecidableEq, Repr

/-- Model of `tower_grpc::Code`, restricted to the codes the sources use. -/
inductive Code : Type
  | Ok
  | InvalidArgument
  | Unauthenticated
  | Other (n : Nat)
deriving DecidableEq, Repr

/-- What `serve_tap` does with one accepted session. -/
inductive TapResponse : Type
  | ServeAdmin
  | DropConnection
  | ServeUnauthenticated
deriving DecidableEq, Repr

/-- Model of the authorization decision in `serve_tap`: when an expected
identity is configured, a present peer identity different from it gets the
static Unauthenticated HTTP/2 service; an absent peer identity makes the
listener return without serving; otherwise (equal identity, or no expected
identity configured) the admin RPC is served. Identities are modelled as
strings. -/
def serve_tap_decision (tap_identity : Conditional String)
    (peer_identity : Conditional String) : TapResponse :=
  match tap_identity with
  | Conditional.Csome expected =>
    match peer_identity with
    | Conditional.Csome peer =>
      if peer ≠ expected then TapResponse.ServeUnauthenticated
      else TapResponse.ServeAdmin
    | Conditional.Cnone _ => TapResponse.DropConnection
  | Conditional.Cnone _ => TapResponse.ServeAdmin

/-- Model of the static service served to a mismatched peer:
`svc::mk(|_| Err(grpc::Status::new(grpc::Code::Unauthenticated, "foo")))` —
every call is answered with an error status, never a response. -/
def unauthenticated_tap_service {Req Res : Type} (_req : Req) :
    Except (Code × String) Res :=
  Except.error (Code.Unauthenticated, "foo")

/-! ## Resolution::poll (src/control/destination/resolution.rs lines 70-108)

The remote query is modelled by a script: the list of successive results of
`query.poll()`. Wire messages carry already-decoded payloads (the decoding
itself is `pb_to_sock_addr` / `pb_to_addr_meta_labels` above, applied by
`Inner::poll_update` through `filter_map`). -/

/-- Model of the `PbUpdate2` oneof carried by one `Destination.Get` message,
after address decoding. -/
inductive WireUpdate : Type
  | add (entries : List (SocketAddr × Metadata))
  | remove (addrs : List SocketAddr)
  | noEndpoints
deriving DecidableEq, Repr

/-- One result of `query.poll()`: a message (whose `update` field is
optional), end of stream, pending, or a gRPC error status. -/
inductive QEvent : Type
  | msg (u : Option WireUpdate)
  | eos
  | notReady
  | fail (code : Code)
deriving DecidableEq, Repr

/-- Model of `Resolution`: the delta cache, the optional inner query (the
remaining script; `none` after the query was discarded), and a counter of
reconnect attempts (each `Inner::reconnect` call). -/
structure ResolutionM : Type where
  cache : Cache
  inner : Option (List QEvent)
  reconnects : Nat
deriving DecidableEq, Repr

/-- Result of one `Resolution::poll` call (its error type is `Never`). -/
inductive RPoll : Type
  | ready (u : Update Metadata)
  | notReady
deriving DecidableEq, Repr

/-- Dispatch of `Inner::poll_update` on a decoded wire message. -/
def applyWire (w : WireUpdate) (c : Cache) : Cache :=
  match w with
  | WireUpdate.add entries => c.add entries
  | WireUpdate.remove addrs => c.remove addrs
  | WireUpdate.noEndpoints => c.no_endpoints

/-- The poll loop of `Resolution::poll` while the inner query is live: each
iteration pops the cache if nonempty, otherwise consumes one query event.
`eos` and non-InvalidArgument errors reconnect (counted) and continue; an
`InvalidArgument` error runs `cache.no_endpoints()`, discards the inner query
and lets the loop yield the head of the refilled queue. -/
def pollQuery (recon : Nat) : List QEvent → Cache → ResolutionM × RPoll
  | [], c => ({ cache := c, inner := some [], reconnects := recon }, RPoll.notReady)
  | ev :: rest, c =>
    match ev with
    | QEvent.notReady =>
      ({ cache := c, inner := some rest, reconnects := recon }, RPoll.notReady)
    | QEvent.eos => pollQuery (recon + 1) rest c
    | QEvent.msg none => pollQuery recon rest c
    | QEvent.msg (some w) =>
      let c' := applyWire w c
      match c'.queue with
      | u :: q =>
        ({ cache := { c' with queue := q }, inner := some rest, reconnects := recon },
         RPoll.ready u)
      | [] => pollQuery recon rest c'
    | QEvent.fail code =>
      if code = Code.InvalidArgument then
        let c' := c.no_endpoints
        match c'.queue with
        | u :: q =>
          ({ cache := { c' with queue := q }, inner := none, reconnects := recon },
           RPoll.ready u)
        | [] => ({ cache := c', inner := none, reconnects := recon }, RPoll.notReady)
      else pollQuery (recon + 1) rest c

/-- Model of one `Resolution::poll` call. With a live query it runs
`pollQuery`; with the query discarded (`inner == None`) the loop runs
`cache.no_endpoints()` and then pops the queue, exactly as the `else` branch
of the source loop does. -/
def ResolutionM.poll (r : ResolutionM) : ResolutionM × RPoll :=
  match r.cache.queue with
  | u :: rest =>
    ({ r with cache := { r.cache with queue := rest } }, RPoll.ready u)
  | [] =>
    match r.inner with
    | some script => pollQuery r.reconnects script r.cache
    | none =>
      let c' := r.cache.no_endpoints
      match c'.queue with
      | u :: q =>
        ({ cache := { c' with queue := q }, inner := none, reconnects := r.reconnects },
         RPoll.ready u)
      | [] =>
        ({ cache := c', inner := none, reconnects := r.reconnects }, RPoll.notReady)

/-- Successive results of `n` consecutive `Resolution::poll` calls. -/
def ResolutionM.runPolls : Nat → ResolutionM → List RPoll
  | 0, _ => []
  | n + 1, r =>
    let p := r.poll
    p.2 :: ResolutionM.runPolls n p.1

/-! ## Discover, MakeStream, MakeFuture (src/proxy/resolve.rs)

Each in-flight child-service build (`MakeFuture`) carries its address, the
state of its oneshot cancellation receiver (`canceled` is true once the
sender has signalled), and a script of the successive results of polling the
inner factory future. The `cancellations` map associates an address with the
identifier of the build whose sender it holds (senders are identified by the
`nextId` counter); `IndexMap::insert` on an existing key replaces the sender,
which merely drops the old one — a dropped sender is observed by its receiver
as `Err(Canceled)`, which `MakeFuture::poll` ignores. -/

/-- One result of polling a plain future. -/
inductive MPoll (σ ε : Type) : Type
  | ready (svc : σ)
  | notReady
  | fail (e : ε)
deriving DecidableEq

/-- An in-flight `MakeFuture` inside the `FuturesUnordered` set. -/
structure Build (σ ε : Type) : Type where
  id : Nat
  addr : SocketAddr
  canceled : Bool
  script : List (MPoll σ ε)
deriving DecidableEq

/-- Model of `MakeError`. -/
inductive MakeError (ε : Type) : Type
  | Inner (e : ε)
  | Canceled
deriving DecidableEq

/-- Model of `MakeFuture::poll` (resolve.rs lines 251-258): the cancellation
receiver is polled first — if signalled the future yields `Canceled` no
matter what the inner future would do; otherwise the inner future is polled
(consuming one script entry when pending) and a ready service is paired with
the address; an inner error is wrapped in `MakeError::Inner`. An exhausted
script stands for a still-pending inner future. -/
def Build.poll {σ ε : Type} (b : Build σ ε) :
    MPoll (SocketAddr × σ) (MakeError ε) × Build σ ε :=
  if b.canceled then (MPoll.fail MakeError.Canceled, b)
  else
    match b.script with
    | [] => (MPoll.notReady, b)
    | r :: rest =>
      match r with
      | MPoll.ready svc => (MPoll.ready (b.addr, svc), b)
      | MPoll.notReady => (MPoll.notReady, { b with script := rest })
      | MPoll.fail e => (MPoll.fail (MakeError.Inner e), b)

/-- Lookup in the cancellation map. -/
def cmLookup (m : List (SocketAddr × Nat)) (a : SocketAddr) : Option Nat :=
  match m.find? (fun p => decide (p.1 = a)) with
  | some p => some p.2
  | none => none

/-- Model of `IndexMap::insert` for the cancellation map: replace in place or
append. -/
def cmInsert (m : List (SocketAddr × Nat)) (a : SocketAddr) (id : Nat) :
    List (SocketAddr × Nat) :=
  if (m.find? (fun p => decide (p.1 = a))).isSome then
    m.map (fun p => if p.1 = a then (a, id) else p)
  else m ++ [(a, id)]

/-- Model of `IndexMap::remove` for the cancellation map (the claims never
depend on the map's internal order, so removal is modelled as filtering). -/
def cmErase (m : List (SocketAddr × Nat)) (a : SocketAddr) :
    List (SocketAddr × Nat) :=
  m.filter (fun p => decide (p.1 ≠ a))

/-- Model of `MakeStream`: the in-flight builds (`FuturesUnordered`), the
cancellation map, the counter minting sender identities, and a flag recording
whether every `debug_assert!(_rm.is_some())` so far has held. -/
structure MakeStream (σ ε : Type) : Type where
  futures : List (Build σ ε)
  cancellations : List (SocketAddr × Nat)
  nextId : Nat
  assertOk : Bool
deriving DecidableEq

/-- Model of `MakeStream::push` (resolve.rs lines 207-216): mint a fresh
cancellation pair, register the sender under the address (replacing — and
thereby merely dropping — any sender already registered there), and add the
build to the set. -/
def MakeStream.push {σ ε : Type} (m : MakeStream σ ε) (addr : SocketAddr)
    (script : List (MPoll σ ε)) : MakeStream σ ε :=
  { futures := m.futures ++ [{ id := m.nextId, addr := addr, canceled := false, script := script }],
    cancellations := cmInsert m.cancellations addr m.nextId,
    nextId := m.nextId + 1,
    assertOk := m.assertOk }

/-- Model of `MakeStream::remove` (resolve.rs lines 218-222): if a sender is
registered for the address, take it out of the map and signal it, which marks
the matching build as cancelled; otherwise do nothing. -/
def MakeStream.remove {σ ε : Type} (m : MakeStream σ ε) (addr : SocketAddr) :
    MakeStream σ ε :=
  match cmLookup m.cancellations addr with
  | some id =>
    { m with
      cancellations := cmErase m.cancellations addr,
      futures := m.futures.map
        (fun b => if b.id = id then { b with canceled := true } else b) }
  | none => m

/-- One result of `MakeStream::poll` (`Stream` with item
`(SocketAddr, Service)`). -/
inductive SPoll (σ ε : Type) : Type
  | readySome (addr : SocketAddr) (svc : σ)
  | readyNone
  | notReady
  | fail (e : ε)
deriving DecidableEq

/-- The walk of `FuturesUnordered::poll` inside `MakeStream::poll`
(resolve.rs lines 229-242): each build is polled in turn; a `Canceled` error
drops the build and the loop silently continues; an inner error drops the
build and is returned as the stream's error; a ready build is dropped, its
cancellation entry removed (`debug_assert!` that it was present — recorded in
the returned flag), and the pair returned; pending builds are retained. An
emptied set yields `Ready(None)`, a nonempty pending set yields `NotReady`. -/
def msGo {σ ε : Type} (canc : List (SocketAddr × Nat)) (aok : Bool) :
    List (Build σ ε) → List (Build σ ε) →
    List (Build σ ε) × List (SocketAddr × Nat) × Bool × SPoll σ ε
  | [], kept =>
    (kept, canc, aok, if kept.isEmpty then SPoll.readyNone else SPoll.notReady)
  | b :: rest, kept =>
    match b.poll with
    | (MPoll.fail MakeError.Canceled, _) => msGo canc aok rest kept
    | (MPoll.fail (MakeError.Inner e), _) => (kept ++ rest, canc, aok, SPoll.fail e)
    | (MPoll.ready (a, svc), _) =>
      let present := (cmLookup canc a).isSome
      (kept ++ rest, cmErase canc a, aok && present, SPoll.readySome a svc)
    | (MPoll.notReady, b') => msGo canc aok rest (kept ++ [b'])

/-- Model of `MakeStream::poll`. -/
def MakeStream.poll {σ ε : Type} (m : MakeStream σ ε) : MakeStream σ ε × SPoll σ ε :=
  let r := msGo m.cancellations m.assertOk m.futures []
  ({ futures := r.1, cancellations := r.2.1, nextId := m.nextId, assertOk := r.2.2.1 },
   r.2.2.2)

/-- One update from the resolution as `Discover::poll` sees it; an `Add`
carries the script of the factory future that `make.call(target)` returns for
this endpoint. -/
inductive DUpdate (σ ε : Type) : Type
  | Add (addr : SocketAddr) (script : List (MPoll σ ε))
  | Remove (addr : SocketAddr)
  | NoEndpoints
deriving DecidableEq

/-- Model of `Discover`: the script of successive `resolution.poll()` results
(`none` is `NotReady`), the `MakeStream`, and the `is_empty` flag. The
factory's `poll_ready` is modelled as always ready, which is what the claims
about this adapter assume. -/
structure DiscoverM (σ ε : Type) : Type where
  resolution : List (Option (DUpdate σ ε))
  makes : MakeStream σ ε
  is_empty : Bool
deriving DecidableEq

/-- One result of `Discover::poll` (`Change<SocketAddr, Service>`). -/
inductive DPoll (σ ε : Type) : Type
  | insert (addr : SocketAddr) (svc : σ)
  | remove (addr : SocketAddr)
  | notReady
  | fail (e : ε)
deriving DecidableEq

/-- The loop of `Discover::poll` (resolve.rs lines 163-194): drain ready
builds first (an insert clears `is_empty`; a build error is the stream's
error); otherwise pull one resolution update: `Add` pushes a build and loops,
`Remove` cancels any in-flight build and returns the removal eagerly,
`NoEndpoints` sets `is_empty` and loops; a pending resolution is pending. -/
def dgo {σ ε : Type} : List (Option (DUpdate σ ε)) → MakeStream σ ε → Bool →
    DiscoverM σ ε × DPoll σ ε
  | [], ms, ie =>
    let mr := ms.poll
    match mr.2 with
    | SPoll.readySome a svc => ({ resolution := [], makes := mr.1, is_empty := false }, DPoll.insert a svc)
    | SPoll.fail e => ({ resolution := [], makes := mr.1, is_empty := ie }, DPoll.fail e)
    | _ => ({ resolution := [], makes := mr.1, is_empty := ie }, DPoll.notReady)
  | ev :: rest, ms, ie =>
    let mr := ms.poll
    match mr.2 with
    | SPoll.readySome a svc =>
      ({ resolution := ev :: rest, makes := mr.1, is_empty := false }, DPoll.insert a svc)
    | SPoll.fail e => ({ resolution := ev :: rest, makes := mr.1, is_empty := ie }, DPoll.fail e)
    | _ =>
      match ev with
      | none => ({ resolution := rest, makes := mr.1, is_empty := ie }, DPoll.notReady)
      | some (DUpdate.Add a script) => dgo rest ((mr.1).push a script) ie
      | some (DUpdate.Remove a) =>
        ({ resolution := rest, makes := (mr.1).remove a, is_empty := ie }, DPoll.remove a)
      | some DUpdate.NoEndpoints => dgo rest mr.1 true

/-- Model of one `Discover::poll` call. -/
def DiscoverM.poll {σ ε : Type} (d : DiscoverM σ ε) : DiscoverM σ ε × DPoll σ ε :=
  dgo d.resolution d.makes d.is_empty

/-- Whether a resolution event is an `Add` for the given address. -/
def isAddFor {σ ε : Type} (a : SocketAddr) : Option (DUpdate σ ε) → Bool
  | some (DUpdate.Add addr _) => decide (addr = a)
  | _ => false

/-- Successive results of `n` consecutive `Discover::poll` calls. -/
def DiscoverM.run {σ ε : Type} : Nat → DiscoverM σ ε → List (DPoll σ ε)
  | 0, _ => []
  | n + 1, d =>
    let p := d.poll
    p.2 :: DiscoverM.run n p.1

/-! ## Theorems -/

theorem add_addrs_of_fresh :
    ∀ (l : List (SocketAddr × Metadata)) (c : Cache),
      (∀ x ∈ l, x.1 ∉ c.addrs) → (l.map Prod.fst).Nodup →
      (c.add l).addrs = c.addrs ++ l.map Prod.fst
  | [], c, _, _ => by simp [Cache.add]
  | am :: rest, c, hfresh, hnodup => by
    have hins : insertSet c.addrs am.1 = c.addrs ++ [am.1] := by
      simp [insertSet, hfresh am (List.mem_cons_self _ _)]
    have hfresh' : ∀ x ∈ rest, x.1 ∉ c.addrs ++ [am.1] := by
      intro x hx
      rw [List.mem_append]
      rintro (hmem | hmem)
      · exact hfresh x (List.mem_cons_of_mem _ hx) hmem
      · rw [List.mem_singleton] at hmem
        exact (List.pairwise_cons.mp hnodup).1 x.1
          (List.mem_map.mpr ⟨x, hx, rfl⟩) hmem.symm
    have hnodup' : (rest.map Prod.fst).Nodup := (List.pairwise_cons.mp hnodup).2
    have hstep : Cache.add c (am :: rest) =
        Cache.add { queue := c.queue ++ [Update.Add am.1 am.2],
                    addrs := insertSet c.addrs am.1 } rest := rfl
    rw [hstep, hins, add_addrs_of_fresh rest _ hfresh' hnodup']
    simp

/-- Counterexample to C1 as stated: `IndexSet::remove` is a swap remove, so
after adding three addresses and removing the first, the live set iterates
with the then-last address moved into the removed slot; the subsequent
`no_endpoints()` therefore drains the removals with `10.0.0.3` before
`10.0.0.2`, not in the insertion order the claim requires. -/
theorem claim_C1_counterexample :
    (Cache.no_endpoints (Cache.remove
        (Cache.add { queue := [], addrs := [] }
          [({ ip := IpAddr.v4 [10, 0, 0, 1], port := 1 },
            { labels := [], protocol_hint := ProtocolHint.Unknown,
              identity := none, weight := 0 }),
           ({ ip := IpAddr.v4 [10, 0, 0, 2], port := 2 },
            { labels := [], protocol_hint := ProtocolHint.Unknown,
              identity := none, weight := 0 }),
           ({ ip := IpAddr.v4 [10, 0, 0, 3], port := 3 },
            { labels := [], protocol_hint := ProtocolHint.Unknown,
              identity := none, weight := 0 })])
        [{ ip := IpAddr.v4 [10, 0, 0, 1], port := 1 }])).queue =
      [Update.NoEndpoints,
       Update.Remove { ip := IpAddr.v4 [10, 0, 0, 3], port := 3 },
       Update.Remove { ip := IpAddr.v4 [10, 0, 0, 2], port := 2 }] ∧
    (Cache.no_endpoints (Cache.remove
        (Cache.add { queue := [], addrs := [] }
          [({ ip := IpAddr.v4 [10, 0, 0, 1], port := 1 },
            { labels := [], protocol_hint := ProtocolHint.Unknown,
              identity := none, weight := 0 }),
           ({ ip := IpAddr.v4 [10, 0, 0, 2], port := 2 },
            { labels := [], protocol_hint := ProtocolHint.Unknown,
              identity := none, weight := 0 }),
           ({ ip := IpAddr.v4 [10, 0, 0, 3], port := 3 },
            { labels := [], protocol_hint := ProtocolHint.Unknown,
              identity := none, weight := 0 })])
        [{ ip := IpAddr.v4 [10, 0, 0, 1], port := 1 }])).queue ≠
      [Update.NoEndpoints,
       Update.Remove { ip := IpAddr.v4 [10, 0, 0, 2], port := 2 },
       Update.Remove { ip := IpAddr.v4 [10, 0, 0, 3], port := 3 }] := by
  exact ⟨by decide, by decide⟩

/-- C1 (amended): `no_endpoints()` clears all queued updates, places a single
`NoEndpoints` update at the head of the queue, appends one `Remove(a)` per
address of the live set in the set's iteration order — insertion order as
permuted by earlier removals, each of which moved the then-last address into
the removed slot (`IndexSet::remove` is a swap remove) — and leaves the live
set empty; hence the consumer drains exactly `NoEndpoints` followed by those
removals and never an update enqueued before the call. For a history that
never removed an address, the live set, and hence the drain order, is in
insertion order. -/
theorem claim_C1_no_endpoints_checkpoint :
    (∀ c : Cache,
      (c.no_endpoints).queue = Update.NoEndpoints :: c.addrs.map Update.Remove ∧
      (c.no_endpoints).addrs = [] ∧
      (c.no_endpoints).drain = Update.NoEndpoints :: c.addrs.map Update.Remove) ∧
    (∀ l : List (SocketAddr × Metadata), (l.map Prod.fst).Nodup →
      (Cache.add { queue := [], addrs := [] } l).addrs = l.map Prod.fst) := by
  constructor
  · intro c
    exact ⟨rfl, rfl, rfl⟩
  · intro l h
    have hmain := add_addrs_of_fresh l { queue := [], addrs := [] }
      (by intro x hx; simp) h
    simpa using hmain

/-- Witness for C1 (amended): an add-only history of two distinct addresses
leaves the live set, and hence the drain order of a later `no_endpoints()`,
in insertion order. -/
theorem claim_C1_witness :
    (Cache.add { queue := [], addrs := [] }
        [({ ip := IpAddr.v4 [10, 0, 0, 1], port := 1 },
          { labels := [], protocol_hint := ProtocolHint.Unknown,
            identity := none, weight := 0 }),
         ({ ip := IpAddr.v4 [10, 0, 0, 2], port := 2 },
          { labels := [], protocol_hint := ProtocolHint.Unknown,
            identity := none, weight := 0 })]).addrs =
      [{ ip := IpAddr.v4 [10, 0, 0, 1], port := 1 },
       { ip := IpAddr.v4 [10, 0, 0, 2], port := 2 }] :=
  claim_C1_no_endpoints_checkpoint.2
    [({ ip := IpAddr.v4 [10, 0, 0, 1], port := 1 },
      { labels := [], protocol_hint := ProtocolHint.Unknown,
        identity := none, weight := 0 }),
     ({ ip := IpAddr.v4 [10, 0, 0, 2], port := 2 },
      { labels := [], protocol_hint := ProtocolHint.Unknown,
        identity := none, weight := 0 })] (by decide)

/-- C6: `pb_to_sock_addr` returns `None` exactly when the outer IP envelope
or the inner IP variant is missing; an `Ipv6{first, last}` value is decoded
by laying out `first` then `last` as big-endian octets while the 32-bit port
field is truncated to its low 16 bits; in particular
`TcpAddress{ip: Ipv6{first: 0x20010db8_00000000, last: 0x1}, port: 443}`
decodes to `[2001:db8::1]:443`. -/
theorem claim_C6_pb_to_sock_addr :
    (∀ pb : TcpAddress, pb_to_sock_addr pb = none ↔
      (pb.ip = none ∨ ∃ env, pb.ip = some env ∧ env.ip = none)) ∧
    (∀ v6 : IPv6, ∀ port : Nat,
      pb_to_sock_addr { ip := some { ip := some (Ip.Ipv6 v6) }, port := port } =
        some { ip := IpAddr.v6 [v6.first >>> 56 % 256, v6.first >>> 48 % 256,
                 v6.first >>> 40 % 256, v6.first >>> 32 % 256, v6.first >>> 24 % 256,
                 v6.first >>> 16 % 256, v6.first >>> 8 % 256, v6.first % 256,
                 v6.last >>> 56 % 256, v6.last >>> 48 % 256, v6.last >>> 40 % 256,
                 v6.last >>> 32 % 256, v6.last >>> 24 % 256, v6.last >>> 16 % 256,
                 v6.last >>> 8 % 256, v6.last % 256],
               port := port % 65536 }) ∧
    (∀ pb : TcpAddress, ∀ sa : SocketAddr,
      pb_to_sock_addr pb = some sa → sa.port = pb.port % 65536) ∧
    pb_to_sock_addr
        { ip := some { ip := some (Ip.Ipv6 { first := 0x20010db800000000, last := 0x0000000000000001 }) },
          port := 443 } =
      some { ip := IpAddr.v6 [0x20, 0x01, 0x0d, 0xb8, 0, 0, 0, 0, 0, 0, 0, 0, 0, 0, 0, 1],
             port := 443 } := by
  refine ⟨?_, ?_, ?_, ?_⟩
  · intro pb
    rcases pb with ⟨ip, port⟩
    rcases ip with _ | ⟨env⟩
    · simp [pb_to_sock_addr]
    · rcases env with _ | ⟨v4 | v6⟩ <;> simp [pb_to_sock_addr]
  · intro v6 port
    rfl
  · intro pb sa h
    rcases pb with ⟨ip, port⟩
    rcases ip with _ | ⟨env⟩
    · simp [pb_to_sock_addr] at h
    · rcases env with _ | ⟨v4 | v6⟩
      · simp [pb_to_sock_addr] at h
      · simp [pb_to_sock_addr] at h
        rw [← h]
      · simp [pb_to_sock_addr] at h
        rw [← h]
  · decide

/-- Witness for C6: the port-truncation conjunct applied at a concrete
address whose 32-bit port field 65536 + 443 narrows to 443. -/
theorem claim_C6_witness :
    ({ ip := IpAddr.v4 [10, 0, 0, 1], port := 443 } : SocketAddr).port = 65979 % 65536 :=
  claim_C6_pb_to_sock_addr.2.2.1
    { ip := some { ip := some (Ip.Ipv4 0x0a000001) }, port := 65979 }
    { ip := IpAddr.v4 [10, 0, 0, 1], port := 443 } (by decide)

/-- C7: with no expected tap identity the admin RPC is served; with an
expected identity an identity-less peer is dropped without serving anything,
a peer with a different identity is served the static HTTP/2 service that
answers every call with gRPC status `Unauthenticated`, and a peer with the
expected identity is served the admin RPC. -/
theorem claim_C7_tap_authorization :
    (∀ reason : Nat, ∀ peer : Conditional String,
      serve_tap_decision (Conditional.Cnone reason) peer = TapResponse.ServeAdmin) ∧
    (∀ expected : String, ∀ reason : Nat,
      serve_tap_decision (Conditional.Csome expected) (Conditional.Cnone reason) =
        TapResponse.DropConnection) ∧
    (∀ expected peer : String, peer ≠ expected →
      serve_tap_decision (Conditional.Csome expected) (Conditional.Csome peer) =
        TapResponse.ServeUnauthenticated) ∧
    (∀ expected : String,
      serve_tap_decision (Conditional.Csome expected) (Conditional.Csome expected) =
        TapResponse.ServeAdmin) ∧
    (∀ req : Nat, (unauthenticated_tap_service req : Except (Code × String) Nat) =
      Except.error (Code.Unauthenticated, "foo")) := by
  refine ⟨fun _ _ => rfl, fun _ _ => rfl, ?_, ?_, fun _ => rfl⟩
  · intro expected peer h
    simp [serve_tap_decision, h]
  · intro expected
    simp [serve_tap_decision]

/-- Witness for C7: a peer identity different from the expected one gets the
Unauthenticated stub service. -/
theorem claim_C7_witness :
    serve_tap_decision (Conditional.Csome "controller.linkerd") (Conditional.Csome "attacker") =
      TapResponse.ServeUnauthenticated :=
  claim_C7_tap_authorization.2.2.1 "controller.linkerd" "attacker" (by decide)

/-- C9: `resolve_all_ips` converts a `NoRecordsFound` failure into
`DoesNotExist{retry_after}` with the negative-cache validity, returns
`Exists(list)` on success, and propagates every other resolver error
unchanged. -/
theorem claim_C9_resolve_all_ips {α : Type} :
    (∀ valid_until : Option Nat,
      resolve_all_ips_result (α := α)
          (Except.error (ResolveErrorKind.NoRecordsFound valid_until)) =
        Except.ok (Response.DoesNotExist valid_until)) ∧
    (∀ lookup : α,
      resolve_all_ips_result (Except.ok lookup) = Except.ok (Response.Exists lookup)) ∧
    (∀ e : ResolveErrorKind,
      (∀ valid_until, e ≠ ResolveErrorKind.NoRecordsFound valid_until) →
      resolve_all_ips_result (α := α) (Except.error e) = Except.error e) := by
  refine ⟨fun _ => rfl, fun _ => rfl, ?_⟩
  intro e he
  cases e with
  | NoRecordsFound vu => exact absurd rfl (he vu)
  | Other tag => rfl

/-- Witness for C9: a non-`NoRecordsFound` resolver error propagates
unchanged. -/
theorem claim_C9_witness :
    resolve_all_ips_result (α := Nat) (Except.error (ResolveErrorKind.Other 7)) =
      Except.error (ResolveErrorKind.Other 7) :=
  claim_C9_resolve_all_ips.2.2 (ResolveErrorKind.Other 7) (fun _ => by simp)

theorem singleton_suffix_iff_getLast (c : Char) (l : List Char) :
    [c] <:+ l ↔ l.getLast? = some c := by
  constructor
  · rintro ⟨p, hp⟩
    rw [← hp]
    exact List.getLast?_concat p
  · intro h
    have hl : l ≠ [] := by
      intro e
      rw [e] at h
      simp at h
    have hcat := List.dropLast_append_getLast hl
    have hc : l.getLast hl = c := by
      have := List.getLast?_eq_getLast l hl
      rw [this] at h
      exact Option.some.inj h
    exact ⟨l.dropLast, by rw [← hc]; exact hcat⟩

theorem getLast?_take_eq_get? (l : List Char) (i : Nat) (h1 : 0 < i) (h2 : i ≤ l.length) :
    (l.take i).getLast? = l.get? (i - 1) := by
  rw [List.getLast?_eq_get?]
  rw [List.length_take]
  rw [min_eq_left h2]
  exact List.get?_take (by omega)

/-- C5: `Suffix::contains` returns true iff the suffix is root, or the name
(trailing dot stripped) ends with the suffix (trailing dot stripped) and
additionally either the two stripped strings have equal length or the
character of the name immediately preceding the matched suffix is a dot; in
particular `Suffix("example.com")` contains `"hacker.example.com"` but not
`"hackerexample.com"`. -/
theorem claim_C5_suffix_containment :
    (∀ (sfx : Suffix) (nm : String),
      Suffix.contains sfx nm = true ↔ specContains sfx nm) ∧
    Suffix.contains (Suffix.Name "example.com") "hacker.example.com" = true ∧
    Suffix.contains (Suffix.Name "example.com") "hackerexample.com" = false := by
  refine ⟨?_, by decide, by decide⟩
  intro sfx nm
  cases sfx with
  | Root => simp [Suffix.contains, specContains]
  | Name s =>
    show (strEndsWith (withoutTrailingDot nm) (withoutTrailingDot s) &&
        ((withoutTrailingDot nm).length == (withoutTrailingDot s).length ||
          strEndsWith ((withoutTrailingDot nm).take
            ((withoutTrailingDot nm).length - (withoutTrailingDot s).length)) ['.'])) = true ↔
      (withoutTrailingDot s <:+ withoutTrailingDot nm ∧
        ((withoutTrailingDot nm).length = (withoutTrailingDot s).length ∨
          (withoutTrailingDot nm).get?
            ((withoutTrailingDot nm).length - (withoutTrailingDot s).length - 1) = some '.'))
    generalize withoutTrailingDot nm = n
    generalize withoutTrailingDot s = t
    rw [Bool.and_eq_true, Bool.or_eq_true, beq_iff_eq]
    rw [show strEndsWith n t = List.isSuffixOf t n from rfl]
    rw [List.isSuffixOf_iff_suffix]
    apply and_congr_right
    intro hsfx
    by_cases hlen : n.length = t.length
    · simp [hlen]
    · have hlt : t.length < n.length :=
        lt_of_le_of_ne hsfx.length_le (fun e => hlen e.symm)
      have h1 : 0 < n.length - t.length := by omega
      have h2 : n.length - t.length ≤ n.length := by omega
      simp only [hlen, false_or, false_iff, iff_false]
      rw [show strEndsWith (n.take (n.length - t.length)) ['.'] =
        List.isSuffixOf ['.'] (n.take (n.length - t.length)) from rfl]
      rw [List.isSuffixOf_iff_suffix, singleton_suffix_iff_getLast,
        getLast?_take_eq_get? n (n.length - t.length) h1 h2]

theorem lexLe_trans : ∀ (a b c : List Char),
    lexLe a b = true → lexLe b c = true → lexLe a c = true
  | [], _, _, _, _ => rfl
  | x :: xs, [], _, h, _ => by simp [lexLe] at h
  | x :: xs, y :: ys, [], _, h => by simp [lexLe] at h
  | x :: xs, y :: ys, z :: zs, h1, h2 => by
    simp only [lexLe] at h1 h2 ⊢
    by_cases hxy : x < y
    · by_cases hyz : y < z
      · simp [lt_trans hxy hyz]
      · by_cases hzy : z < y
        · simp [hyz, hzy] at h2
        · have : y = z := le_antisymm (not_lt.mp hzy) (not_lt.mp hyz)
          subst this
          simp [hxy]
    · by_cases hyx : y < x
      · simp [hxy, hyx] at h1
      · have hxye : x = y := le_antisymm (not_lt.mp hyx) (not_lt.mp hxy)
        subst hxye
        by_cases hyz : x < z
        · simp [hyz]
        · by_cases hzy : z < x
          · simp [hyz, hzy] at h2
          · rw [if_neg hyz, if_neg hzy]
            rw [if_neg hxy, if_neg hxy] at h1
            rw [if_neg hyz, if_neg hzy] at h2
            exact lexLe_trans xs ys zs h1 h2

theorem lexLe_total : ∀ (a b : List Char), (lexLe a b || lexLe b a) = true
  | [], _ => rfl
  | _ :: _, [] => rfl
  | x :: xs, y :: ys => by
    simp only [lexLe]
    by_cases hxy : x < y
    · simp [hxy]
    · by_cases hyx : y < x
      · simp [hxy, hyx]
      · simp only [if_neg hxy, if_neg hyx]
        exact lexLe_total xs ys

theorem lexLe_antisymm : ∀ (a b : List Char),
    lexLe a b = true → lexLe b a = true → a = b
  | [], [], _, _ => rfl
  | [], _ :: _, _, h => by simp [lexLe] at h
  | _ :: _, [], h, _ => by simp [lexLe] at h
  | x :: xs, y :: ys, h1, h2 => by
    simp only [lexLe] at h1 h2
    by_cases hxy : x < y
    · simp [hxy, lt_asymm hxy] at h2
    · by_cases hyx : y < x
      · simp [hxy, hyx] at h1
      · have hxye : x = y := le_antisymm (not_lt.mp hyx) (not_lt.mp hxy)
        subst hxye
        simp only [if_neg hxy, if_neg hyx] at h1 h2
        rw [lexLe_antisymm xs ys h1 h2]

theorem any_beq_eq_mem (m : List (String × String)) (k : String) :
    (m.any (fun p => p.1 == k)) = true ↔ k ∈ m.map Prod.fst := by
  rw [List.any_eq_true]
  constructor
  · rintro ⟨p, hp, hpe⟩
    exact List.mem_map.mpr ⟨p, hp, beq_iff_eq.mp hpe⟩
  · intro h
    rcases List.mem_map.mp h with ⟨p, hp, hpe⟩
    exact ⟨p, hp, beq_iff_eq.mpr hpe⟩

theorem map_fst_imInsert (m : List (String × String)) (kv : String × String) :
    (imInsert m kv).map Prod.fst =
      if kv.1 ∈ m.map Prod.fst then m.map Prod.fst else m.map Prod.fst ++ [kv.1] := by
  unfold imInsert
  by_cases h : m.any (fun p => p.1 == kv.1) = true
  · rw [if_pos h, if_pos ((any_beq_eq_mem m kv.1).mp h), List.map_map]
    have hfun : (Prod.fst ∘ fun p : String × String =>
        if p.1 == kv.1 then (p.1, kv.2) else p) = Prod.fst := by
      funext p
      simp only [Function.comp_apply]
      split <;> rfl
    rw [hfun]
  · rw [if_neg h, if_neg (fun hmem => h ((any_beq_eq_mem m kv.1).mpr hmem)), List.map_append]
    rfl

theorem pairwise_keys_foldl_imInsert :
    ∀ (t m : List (String × String)),
      List.Pairwise (fun p q : String × String => lexLe p.1.data q.1.data = true) t →
      List.Pairwise (fun a b : String => lexLe a.data b.data = true) (m.map Prod.fst) →
      (∀ a ∈ m.map Prod.fst, ∀ q ∈ t, lexLe a.data q.1.data = true) →
      List.Pairwise (fun a b : String => lexLe a.data b.data = true)
        ((t.foldl imInsert m).map Prod.fst)
  | [], _, _, hm, _ => by simpa using hm
  | kv :: rest, m, ht, hm, hcross => by
    rw [List.foldl_cons]
    apply pairwise_keys_foldl_imInsert rest (imInsert m kv)
      (List.pairwise_cons.mp ht).2
    · rw [map_fst_imInsert]
      by_cases hmem : kv.1 ∈ m.map Prod.fst
      · rw [if_pos hmem]
        exact hm
      · rw [if_neg hmem, List.pairwise_append]
        refine ⟨hm, List.pairwise_singleton _ _, ?_⟩
        intro a ha b hb
        rw [List.mem_singleton] at hb
        subst hb
        exact hcross a ha kv (List.mem_cons_self _ _)
    · intro a ha q hq
      rw [map_fst_imInsert] at ha
      by_cases hmem : kv.1 ∈ m.map Prod.fst
      · rw [if_pos hmem] at ha
        exact hcross a ha q (List.mem_cons_of_mem _ hq)
      · rw [if_neg hmem] at ha
        rcases List.mem_append.mp ha with hcase | hcase
        · exact hcross a hcase q (List.mem_cons_of_mem _ hq)
        · rw [List.mem_singleton] at hcase
          subst hcase
          exact (List.pairwise_cons.mp ht).1 q hq

theorem foldl_imInsert_of_nodup :
    ∀ (t m : List (String × String)),
      ((m ++ t).map Prod.fst).Nodup →
      t.foldl imInsert m = m ++ t
  | [], m, _ => by simp
  | kv :: rest, m, h => by
    have hnotin : kv.1 ∉ m.map Prod.fst := by
      rw [List.map_append] at h
      rcases List.nodup_append.mp h with ⟨_, _, hdisj⟩
      intro hmem
      exact hdisj hmem (by simp)
    have hstep : imInsert m kv = m ++ [kv] := by
      unfold imInsert
      rw [if_neg (fun hany => hnotin ((any_beq_eq_mem m kv.1).mp hany))]
    rw [List.foldl_cons, hstep,
      foldl_imInsert_of_nodup rest (m ++ [kv]) (by simpa [List.append_assoc] using h)]
    simp

theorem eq_of_perm_of_keySorted_of_nodupKeys
    (l1 l2 : List (String × String))
    (hp : l1.Perm l2)
    (hs1 : List.Pairwise (fun p q : String × String => lexLe p.1.data q.1.data = true) l1)
    (hs2 : List.Pairwise (fun p q : String × String => lexLe p.1.data q.1.data = true) l2)
    (hn1 : (l1.map Prod.fst).Nodup) : l1 = l2 := by
  have hn2 : (l2.map Prod.fst).Nodup := ((hp.map Prod.fst).nodup_iff).mp hn1
  have hanti : IsAntisymm (String × String)
      (fun p q => lexLe p.1.data q.1.data = true ∧ p.1 ≠ q.1) := by
    constructor
    intro p q h1 h2
    exact absurd (String.ext (lexLe_antisymm _ _ h1.1 h2.1)) h1.2
  have hs1' : List.Sorted (fun p q : String × String =>
      lexLe p.1.data q.1.data = true ∧ p.1 ≠ q.1) l1 :=
    hs1.and (List.pairwise_map.mp hn1)
  have hs2' : List.Sorted (fun p q : String × String =>
      lexLe p.1.data q.1.data = true ∧ p.1 ≠ q.1) l2 :=
    hs2.and (List.pairwise_map.mp hn2)
  exact @List.eq_of_perm_of_sorted _ _ hanti _ _ hp hs1' hs2'

/-- C8: the label mapping built by `pb_to_addr_meta` merges the set-level
labels with the endpoint's own labels, and the keys of the result are in
lexicographically sorted order, so that two endpoints carrying the same label
pairs get equal mappings no matter in which order the labels arrived. -/
theorem claim_C8_label_merge :
    (∀ set_labels metric_labels : List (String × String),
      List.Pairwise (fun a b : String => lexLe a.data b.data = true)
        ((pb_to_addr_meta_labels set_labels metric_labels).map Prod.fst)) ∧
    (∀ set_labels metric_labels : List (String × String),
      ((set_labels ++ metric_labels).map Prod.fst).Nodup →
      (pb_to_addr_meta_labels set_labels metric_labels).Perm (set_labels ++ metric_labels)) ∧
    (∀ s1 e1 s2 e2 : List (String × String),
      (s1 ++ e1).Perm (s2 ++ e2) →
      ((s1 ++ e1).map Prod.fst).Nodup →
      pb_to_addr_meta_labels s1 e1 = pb_to_addr_meta_labels s2 e2) := by
  have hsort : ∀ l : List (String × String),
      List.Pairwise (fun p q : String × String => lexLe p.1.data q.1.data = true)
        (l.mergeSort pairLe) := by
    intro l
    exact @List.sorted_mergeSort _ pairLe
      (fun a b c h1 h2 => lexLe_trans _ _ _ h1 h2)
      (fun a b => lexLe_total _ _) l
  refine ⟨?_, ?_, ?_⟩
  · intro s e
    unfold pb_to_addr_meta_labels imInsertAll
    apply pairwise_keys_foldl_imInsert _ _ (hsort _) (by simp) (by simp)
  · intro s e hnod
    unfold pb_to_addr_meta_labels imInsertAll
    have hperm : ((s ++ e).mergeSort pairLe).Perm (s ++ e) := List.mergeSort_perm _ _
    have hnod' : (((s ++ e).mergeSort pairLe).map Prod.fst).Nodup :=
      ((hperm.map Prod.fst).nodup_iff).mpr hnod
    rw [foldl_imInsert_of_nodup _ [] (by simpa using hnod')]
    simpa using hperm
  · intro s1 e1 s2 e2 hp hn
    have key : (s1 ++ e1).mergeSort pairLe = (s2 ++ e2).mergeSort pairLe := by
      apply eq_of_perm_of_keySorted_of_nodupKeys _ _
        (((List.mergeSort_perm _ _).trans hp).trans (List.mergeSort_perm _ _).symm)
        (hsort _) (hsort _)
      exact (((List.mergeSort_perm (s1 ++ e1) pairLe).map Prod.fst).nodup_iff).mpr hn
    unfold pb_to_addr_meta_labels
    rw [key]

/-- Witness for C8: the same two label pairs arriving split differently and
in a different order produce the same mapping, and the mapping is a
permutation of the merged pairs. -/
theorem claim_C8_witness :
    pb_to_addr_meta_labels [("b", "1")] [("a", "2")] =
      pb_to_addr_meta_labels [("a", "2"), ("b", "1")] [] ∧
    (pb_to_addr_meta_labels [("b", "1")] [("a", "2")]).Perm
      ([("b", "1")] ++ [("a", "2")]) :=
  ⟨claim_C8_label_merge.2.2 [("b", "1")] [("a", "2")] [("a", "2"), ("b", "1")] []
      (by decide) (by decide),
    claim_C8_label_merge.2.1 [("b", "1")] [("a", "2")] (by decide)⟩

/-- Counterexample to C3 as stated: with one live address, the subscription
errors with InvalidArgument on the first poll; the three successive polls
yield `Ready(NoEndpoints)`, `Ready(Remove)`, and then `Ready(NoEndpoints)`
again — the third poll does not pend, because with the inner query discarded
the poll loop reruns `cache.no_endpoints()` and pops the fresh `NoEndpoints`
instead of returning `NotReady`. -/
theorem claim_C3_counterexample :
    ResolutionM.runPolls 3
        { cache := { queue := [],
                     addrs := [{ ip := IpAddr.v4 [10, 0, 0, 1], port := 8080 }] },
          inner := some [QEvent.fail Code.InvalidArgument],
          reconnects := 0 } =
      [RPoll.ready Update.NoEndpoints,
       RPoll.ready (Update.Remove { ip := IpAddr.v4 [10, 0, 0, 1], port := 8080 }),
       RPoll.ready Update.NoEndpoints] := by
  decide

/-- C3 (amended): when the subscription's poll errors with InvalidArgument,
the Resolution runs `cache.no_endpoints()`, discards its inner query (so no
reconnect is ever attempted — the reconnect counter never changes again) and
yields `NoEndpoints` with one `Remove` per live address queued behind it;
once the inner query is gone every subsequent poll returns `Ready` — the head
of the queue while it lasts, then `Ready(NoEndpoints)` on every poll after
the queue is drained — and never `NotReady`. -/
theorem claim_C3_invalid_argument_terminal :
    (∀ (c : Cache) (s : List QEvent) (recon : Nat),
      c.queue = [] →
      ResolutionM.poll
          { cache := c, inner := some (QEvent.fail Code.InvalidArgument :: s),
            reconnects := recon } =
        ({ cache := { queue := c.addrs.map Update.Remove, addrs := [] },
           inner := none, reconnects := recon },
         RPoll.ready Update.NoEndpoints)) ∧
    (∀ r : ResolutionM, r.inner = none →
      (r.poll).1.inner = none ∧ (r.poll).1.reconnects = r.reconnects ∧
      (match r.cache.queue with
       | u :: _ => (r.poll).2 = RPoll.ready u
       | [] => (r.poll).2 = RPoll.ready Update.NoEndpoints)) ∧
    (∀ (fuel : Nat) (r : ResolutionM), r.inner = none →
      ∀ x ∈ ResolutionM.runPolls fuel r, x ≠ RPoll.notReady) := by
  have hstep : ∀ r : ResolutionM, r.inner = none →
      (r.poll).1.inner = none ∧ (r.poll).1.reconnects = r.reconnects ∧
      (match r.cache.queue with
       | u :: _ => (r.poll).2 = RPoll.ready u
       | [] => (r.poll).2 = RPoll.ready Update.NoEndpoints) := by
    intro r h
    rcases r with ⟨⟨q, addrs⟩, inner, recon⟩
    cases h
    cases q with
    | nil => exact ⟨rfl, rfl, rfl⟩
    | cons u rest => exact ⟨rfl, rfl, rfl⟩
  refine ⟨?_, hstep, ?_⟩
  · intro c s recon h
    rcases c with ⟨q, addrs⟩
    cases h
    rfl
  · intro fuel
    induction fuel with
    | zero =>
      intro r h x hx
      simp [ResolutionM.runPolls] at hx
    | succ n ih =>
      intro r h x hx
      simp only [ResolutionM.runPolls, List.mem_cons] at hx
      rcases hx with hx | hx
      · subst hx
        rcases hstep r h with ⟨_, _, hm⟩
        cases hq : r.cache.queue with
        | nil =>
          rw [hq] at hm
          rw [hm]
          simp
        | cons u rest =>
          rw [hq] at hm
          rw [hm]
          simp
      · exact ih (r.poll).1 (hstep r h).1 x hx

/-- Witness for C3 (amended): the InvalidArgument conjunct applied to a
resolution with one live address and an empty queue. -/
theorem claim_C3_witness :
    ResolutionM.poll
        { cache := { queue := [],
                     addrs := [{ ip := IpAddr.v4 [10, 0, 0, 1], port := 8080 }] },
          inner := some [QEvent.fail Code.InvalidArgument], reconnects := 0 } =
      ({ cache := { queue := [Update.Remove { ip := IpAddr.v4 [10, 0, 0, 1], port := 8080 }],
                    addrs := [] },
         inner := none, reconnects := 0 },
       RPoll.ready Update.NoEndpoints) :=
  claim_C3_invalid_argument_terminal.1
    { queue := [], addrs := [{ ip := IpAddr.v4 [10, 0, 0, 1], port := 8080 }] }
    [] 0 rfl

/-- C4 evaluation at the failing input: two builds for the same address are
pushed without an intervening Remove (a duplicate `Add` from the wire); the
second `push` replaces — and thereby merely drops — the first build's
cancellation sender, so the first build is not cancelled. Both builds then
complete successfully, but the first completion removes the second build's
cancellation entry, and the second completion finds no entry:
`debug_assert!(_rm.is_some(), "cancellation missing")` fails (the recorded
assertion flag goes false), contradicting the claimed invariant that a
successfully completing build always finds its handle present. -/
theorem claim_C4_debug_assert_violated :
    ((((({ futures := [], cancellations := [], nextId := 0, assertOk := true } : MakeStream Nat Nat).push
        { ip := IpAddr.v4 [10, 0, 0, 1], port := 8080 } [MPoll.ready 1]).push
        { ip := IpAddr.v4 [10, 0, 0, 1], port := 8080 } [MPoll.ready 2]).poll).2 =
      SPoll.readySome { ip := IpAddr.v4 [10, 0, 0, 1], port := 8080 } 1) ∧
    (((((({ futures := [], cancellations := [], nextId := 0, assertOk := true } : MakeStream Nat Nat).push
        { ip := IpAddr.v4 [10, 0, 0, 1], port := 8080 } [MPoll.ready 1]).push
        { ip := IpAddr.v4 [10, 0, 0, 1], port := 8080 } [MPoll.ready 2]).poll).1.poll) =
      ({ futures := [], cancellations := [], nextId := 2, assertOk := false },
       SPoll.readySome { ip := IpAddr.v4 [10, 0, 0, 1], port := 8080 } 2)) := by
  exact ⟨by decide, by decide⟩

/-- C10: a `Remove` is passed through unconditionally — `Cache::remove`
appends `Remove(addr)` to the queue even when the address is not in the live
set (and then leaves the live set unchanged), `MakeStream::remove` is a
no-op when no build for the address is in flight, and `Discover::poll`
returns `Change::Remove(addr)` for a dispatched `Remove` update whether or
not a cancellation entry exists; a `Remove` for an unknown address raises no
error and is never dropped. -/
theorem claim_C10_remove_passthrough {σ ε : Type} :
    (∀ (c : Cache) (a : SocketAddr),
      (c.remove [a]).queue = c.queue ++ [Update.Remove a]) ∧
    (∀ (c : Cache) (a : SocketAddr), a ∉ c.addrs →
      (c.remove [a]).addrs = c.addrs) ∧
    (∀ (m : MakeStream σ ε) (a : SocketAddr),
      cmLookup m.cancellations a = none → MakeStream.remove m a = m) ∧
    (∀ (res : List (Option (DUpdate σ ε))) (ms : MakeStream σ ε) (ie : Bool)
        (a : SocketAddr),
      ((ms.poll).2 = SPoll.readyNone ∨ (ms.poll).2 = SPoll.notReady) →
      dgo (some (DUpdate.Remove a) :: res) ms ie =
        ({ resolution := res, makes := ((ms.poll).1).remove a, is_empty := ie },
         DPoll.remove a)) := by
  refine ⟨?_, ?_, ?_, ?_⟩
  · intro c a
    simp [Cache.remove]
  · intro c a h
    have hidx : c.addrs.findIdx? (fun x => decide (x = a)) = none := by
      rw [List.findIdx?_eq_none_iff]
      intro x hx
      simp only [decide_eq_false_iff_not]
      exact fun he => h (he ▸ hx)
    simp [Cache.remove, swapRemoveSet, hidx]
  · intro m a h
    simp [MakeStream.remove, h]
  · intro res ms ie a h
    rcases h with h | h <;>
      · simp only [dgo]
        rw [h]

/-- Witness for C10: a removal of an address that is neither in the live set
nor has a build in flight still yields the queued `Remove`, leaves the empty
`MakeStream` unchanged, and is returned by the discover loop as
`Change::Remove`. -/
theorem claim_C10_witness :
    (((⟨[], []⟩ : Cache).remove [{ ip := IpAddr.v4 [10, 0, 0, 1], port := 8080 }]).addrs =
      ([] : List SocketAddr)) ∧
    MakeStream.remove
        ({ futures := [], cancellations := [], nextId := 0, assertOk := true } : MakeStream Nat Nat)
        { ip := IpAddr.v4 [10, 0, 0, 1], port := 8080 } =
      { futures := [], cancellations := [], nextId := 0, assertOk := true } ∧
    dgo [some (DUpdate.Remove { ip := IpAddr.v4 [10, 0, 0, 1], port := 8080 })]
        ({ futures := [], cancellations := [], nextId := 0, assertOk := true } : MakeStream Nat Nat)
        false =
      ({ resolution := [],
         makes := ((({ futures := [], cancellations := [], nextId := 0,
                       assertOk := true } : MakeStream Nat Nat).poll).1).remove
           { ip := IpAddr.v4 [10, 0, 0, 1], port := 8080 },
         is_empty := false },
       DPoll.remove { ip := IpAddr.v4 [10, 0, 0, 1], port := 8080 }) :=
  ⟨(claim_C10_remove_passthrough (σ := Nat) (ε := Nat)).2.1 ⟨[], []⟩
      { ip := IpAddr.v4 [10, 0, 0, 1], port := 8080 } (by decide),
    (claim_C10_remove_passthrough (σ := Nat) (ε := Nat)).2.2.1
      { futures := [], cancellations := [], nextId := 0, assertOk := true }
      { ip := IpAddr.v4 [10, 0, 0, 1], port := 8080 } (by decide),
    (claim_C10_remove_passthrough (σ := Nat) (ε := Nat)).2.2.2 []
      { futures := [], cancellations := [], nextId := 0, assertOk := true }
      false { ip := IpAddr.v4 [10, 0, 0, 1], port := 8080 } (Or.inl (by decide))⟩

theorem msGo_cancel_invariant {σ ε : Type} (a : SocketAddr) :
    ∀ (fs kept : List (Build σ ε)) (canc : List (SocketAddr × Nat)) (aok : Bool),
      (∀ b ∈ fs, b.addr = a → b.canceled = true) →
      (∀ b ∈ kept, b.addr = a → b.canceled = true) →
      (∀ svc : σ, (msGo canc aok fs kept).2.2.2 ≠ SPoll.readySome a svc) ∧
      (∀ b ∈ (msGo canc aok fs kept).1, b.addr = a → b.canceled = true)
  | [], kept, canc, aok, _, hkept => by
    constructor
    · intro svc
      simp only [msGo]
      split <;> simp
    · intro b hb
      simp only [msGo] at hb
      exact hkept b hb
  | b :: rest, kept, canc, aok, hfs, hkept => by
    have hb := hfs b (List.mem_cons_self _ _)
    have hrest : ∀ x ∈ rest, x.addr = a → x.canceled = true :=
      fun x hx => hfs x (List.mem_cons_of_mem _ hx)
    by_cases hc : b.canceled = true
    · have hpoll : b.poll = (MPoll.fail MakeError.Canceled, b) := by
        simp [Build.poll, hc]
      simp only [msGo, hpoll]
      exact msGo_cancel_invariant a rest kept canc aok hrest hkept
    · have hba : b.addr ≠ a := fun h => hc (hb h)
      cases hs : b.script with
      | nil =>
        have hpoll : b.poll = (MPoll.notReady, b) := by
          simp [Build.poll, hc, hs]
        simp only [msGo, hpoll]
        have hkept' : ∀ x ∈ kept ++ [b], x.addr = a → x.canceled = true := by
          intro x hx
          rcases List.mem_append.mp hx with hx | hx
          · exact hkept x hx
          · rw [List.mem_singleton] at hx
            subst hx
            exact fun h => absurd h hba
        exact msGo_cancel_invariant a rest (kept ++ [b]) canc aok hrest hkept'
      | cons r tail =>
        cases r with
        | ready svc =>
          have hpoll : b.poll = (MPoll.ready (b.addr, svc), b) := by
            simp [Build.poll, hc, hs]
          simp only [msGo, hpoll]
          constructor
          · intro svc' heq
            exact hba (SPoll.readySome.inj heq).1
          · intro x hx
            rcases List.mem_append.mp hx with hx | hx
            · exact hkept x hx
            · exact hrest x hx
        | notReady =>
          have hpoll : b.poll = (MPoll.notReady, { b with script := tail }) := by
            simp [Build.poll, hc, hs]
          simp only [msGo, hpoll]
          have hkept' : ∀ x ∈ kept ++ [{ b with script := tail }],
              x.addr = a → x.canceled = true := by
            intro x hx
            rcases List.mem_append.mp hx with hx | hx
            · exact hkept x hx
            · rw [List.mem_singleton] at hx
              subst hx
              exact fun h => absurd h hba
          exact msGo_cancel_invariant a rest (kept ++ [{ b with script := tail }]) canc aok hrest hkept'
        | fail e =>
          have hpoll : b.poll = (MPoll.fail (MakeError.Inner e), b) := by
            simp [Build.poll, hc, hs]
          simp only [msGo, hpoll]
          constructor
          · intro svc'
            simp
          · intro x hx
            rcases List.mem_append.mp hx with hx | hx
            · exact hkept x hx
            · exact hrest x hx

theorem makeStreamPoll_cancel_invariant {σ ε : Type} (a : SocketAddr)
    (m : MakeStream σ ε)
    (h : ∀ b ∈ m.futures, b.addr = a → b.canceled = true) :
    (∀ svc : σ, (m.poll).2 ≠ SPoll.readySome a svc) ∧
    (∀ b ∈ (m.poll).1.futures, b.addr = a → b.canceled = true) := by
  have hmain := msGo_cancel_invariant a m.futures [] m.cancellations m.assertOk h
    (by intro b hb; simp at hb)
  exact ⟨hmain.1, hmain.2⟩

theorem push_preserves_cancel_invariant {σ ε : Type} (a : SocketAddr)
    (m : MakeStream σ ε) (a' : SocketAddr) (scr : List (MPoll σ ε))
    (h : ∀ b ∈ m.futures, b.addr = a → b.canceled = true) (hne : a' ≠ a) :
    ∀ b ∈ (m.push a' scr).futures, b.addr = a → b.canceled = true := by
  intro b hb
  rcases List.mem_append.mp hb with hb | hb
  · exact h b hb
  · rw [List.mem_singleton] at hb
    subst hb
    exact fun habs => absurd habs hne

theorem remove_preserves_cancel_invariant {σ ε : Type} (a : SocketAddr)
    (m : MakeStream σ ε) (x : SocketAddr)
    (h : ∀ b ∈ m.futures, b.addr = a → b.canceled = true) :
    ∀ b ∈ (m.remove x).futures, b.addr = a → b.canceled = true := by
  unfold MakeStream.remove
  cases hl : cmLookup m.cancellations x with
  | none => exact h
  | some id =>
    intro b hb hba
    rcases List.mem_map.mp hb with ⟨b0, hb0, hbe⟩
    by_cases hid : b0.id = id
    · rw [if_pos hid] at hbe
      rw [← hbe]
    · rw [if_neg hid] at hbe
      subst hbe
      exact h b0 hb0 hba

theorem dgo_cancel_no_insert {σ ε : Type} (a : SocketAddr) :
    ∀ (res : List (Option (DUpdate σ ε))) (ms : MakeStream σ ε) (ie : Bool),
      (∀ b ∈ ms.futures, b.addr = a → b.canceled = true) →
      (∀ ev ∈ res, isAddFor a ev = false) →
      (∀ svc : σ, (dgo res ms ie).2 ≠ DPoll.insert a svc) ∧
      (∀ b ∈ (dgo res ms ie).1.makes.futures, b.addr = a → b.canceled = true) ∧
      (∀ ev ∈ (dgo res ms ie).1.resolution, isAddFor a ev = false)
  | [], ms, ie, hms, _ => by
    have hinv := makeStreamPoll_cancel_invariant a ms hms
    simp only [dgo]
    cases hsp : (ms.poll).2 with
    | readySome a' svc =>
      refine ⟨?_, hinv.2, by simp⟩
      intro svc' heq
      have hinj := DPoll.insert.inj heq
      have hne := hinv.1 svc
      rw [hsp] at hne
      exact hne (by rw [hinj.1])
    | readyNone => exact ⟨by simp, hinv.2, by simp⟩
    | notReady => exact ⟨by simp, hinv.2, by simp⟩
    | fail e => exact ⟨by simp, hinv.2, by simp⟩
  | ev :: rest, ms, ie, hms, hres => by
    have hinv := makeStreamPoll_cancel_invariant a ms hms
    have hrest : ∀ x ∈ rest, isAddFor (σ := σ) (ε := ε) a x = false :=
      fun x hx => hres x (List.mem_cons_of_mem _ hx)
    have hev := hres ev (List.mem_cons_self _ _)
    simp only [dgo]
    cases hsp : (ms.poll).2 with
    | readySome a' svc =>
      refine ⟨?_, hinv.2, ?_⟩
      · intro svc' heq
        have hinj := DPoll.insert.inj heq
        have hne := hinv.1 svc
        rw [hsp] at hne
        exact hne (by rw [hinj.1])
      · intro x hx
        exact hres x hx
    | fail e => exact ⟨by simp, hinv.2, fun x hx => hres x hx⟩
    | readyNone =>
      cases ev with
      | none => exact ⟨by simp, hinv.2, hrest⟩
      | some u =>
        cases u with
        | Add a' scr =>
          have hne : a' ≠ a := by
            simp [isAddFor] at hev
            exact hev
          exact dgo_cancel_no_insert a rest ((ms.poll).1.push a' scr) ie
            (push_preserves_cancel_invariant a (ms.poll).1 a' scr hinv.2 hne) hrest
        | Remove a' =>
          exact ⟨by simp, remove_preserves_cancel_invariant a (ms.poll).1 a' hinv.2, hrest⟩
        | NoEndpoints =>
          exact dgo_cancel_no_insert a rest (ms.poll).1 true hinv.2 hrest
    | notReady =>
      cases ev with
      | none => exact ⟨by simp, hinv.2, hrest⟩
      | some u =>
        cases u with
        | Add a' scr =>
          have hne : a' ≠ a := by
            simp [isAddFor] at hev
            exact hev
          exact dgo_cancel_no_insert a rest ((ms.poll).1.push a' scr) ie
            (push_preserves_cancel_invariant a (ms.poll).1 a' scr hinv.2 hne) hrest
        | Remove a' =>
          exact ⟨by simp, remove_preserves_cancel_invariant a (ms.poll).1 a' hinv.2, hrest⟩
        | NoEndpoints =>
          exact dgo_cancel_no_insert a rest (ms.poll).1 true hinv.2 hrest

/-- C2: a cancelled build future yields the `Canceled` error no matter what
its inner factory future would do (the cancellation receiver is polled
first); `MakeStream::poll` treats `Canceled` as silent — it emits no item, no
error, and simply keeps polling the remaining builds — while every
non-cancellation build error is propagated as the stream's error and in turn
as the Discover stream's error; consequently, once every in-flight build for
an address has been cancelled and no further `Add` for it arrives, no
`Change::Insert` for that address is ever observed. -/
theorem claim_C2_cancellation_silence {σ ε : Type} :
    (∀ b : Build σ ε, b.canceled = true →
      (b.poll).1 = MPoll.fail MakeError.Canceled) ∧
    (∀ (m : MakeStream σ ε) (b : Build σ ε) (rest : List (Build σ ε)),
      m.futures = b :: rest → b.canceled = true →
      m.poll = MakeStream.poll { m with futures := rest }) ∧
    (∀ (m : MakeStream σ ε) (b : Build σ ε) (rest : List (Build σ ε)) (e : ε),
      m.futures = b :: rest → b.canceled = false →
      b.script.head? = some (MPoll.fail e) →
      (m.poll).2 = SPoll.fail e) ∧
    (∀ (d : DiscoverM σ ε) (e : ε),
      (d.makes.poll).2 = SPoll.fail e → (d.poll).2 = DPoll.fail e) ∧
    (∀ (fuel : Nat) (d : DiscoverM σ ε) (a : SocketAddr),
      (∀ b ∈ d.makes.futures, b.addr = a → b.canceled = true) →
      (∀ ev ∈ d.resolution, isAddFor a ev = false) →
      ∀ svc : σ, DPoll.insert a svc ∉ DiscoverM.run fuel d) := by
  refine ⟨?_, ?_, ?_, ?_, ?_⟩
  · intro b h
    simp [Build.poll, h]
  · intro m b rest hfut hc
    have hpoll : b.poll = (MPoll.fail MakeError.Canceled, b) := by
      simp [Build.poll, hc]
    have hstep : msGo m.cancellations m.assertOk (b :: rest) ([] : List (Build σ ε)) =
        msGo m.cancellations m.assertOk rest [] := by
      simp only [msGo, hpoll]
    simp only [MakeStream.poll, hfut, hstep]
  · intro m b rest e hfut hc hhead
    cases hs : b.script with
    | nil =>
      rw [hs] at hhead
      simp at hhead
    | cons r tail =>
      rw [hs] at hhead
      simp only [List.head?_cons, Option.some.injEq] at hhead
      subst hhead
      have hpoll : b.poll = (MPoll.fail (MakeError.Inner e), b) := by
        simp [Build.poll, hc, hs]
      show (m.poll).2 = SPoll.fail e
      simp only [MakeStream.poll, hfut, msGo, hpoll]
  · intro d e h
    show (dgo d.resolution d.makes d.is_empty).2 = DPoll.fail e
    cases hres : d.resolution with
    | nil =>
      simp only [dgo]
      rw [h]
    | cons ev rest =>
      simp only [dgo]
      rw [h]
  · intro fuel
    induction fuel with
    | zero =>
      intro d a hms hres svc
      simp [DiscoverM.run]
    | succ n ih =>
      intro d a hms hres svc
      have hmain := dgo_cancel_no_insert a d.resolution d.makes d.is_empty hms hres
      intro hmem
      simp only [DiscoverM.run] at hmem
      rcases List.mem_cons.mp hmem with hx | hx
      · exact hmain.1 svc hx.symm
      · exact ih (d.poll).1 a hmain.2.1 hmain.2.2 svc hx

/-- Witness for C2: an address whose only build has been cancelled and whose
remaining resolution script holds a `Remove` and a pending poll never yields
an `Insert` for that address over three polls. -/
theorem claim_C2_witness :
    DPoll.insert { ip := IpAddr.v4 [10, 0, 0, 1], port := 8080 } 5 ∉
      DiscoverM.run 3
        ({ resolution := [some (DUpdate.Remove { ip := IpAddr.v4 [10, 0, 0, 1], port := 8080 }), none],
           makes := { futures := [{ id := 0, addr := { ip := IpAddr.v4 [10, 0, 0, 1], port := 8080 },
                                    canceled := true, script := [MPoll.ready 5] }],
                      cancellations := [], nextId := 1, assertOk := true },
           is_empty := false } : DiscoverM Nat Nat) :=
  claim_C2_cancellation_silence.2.2.2.2 3
    { resolution := [some (DUpdate.Remove { ip := IpAddr.v4 [10, 0, 0, 1], port := 8080 }), none],
      makes := { futures := [{ id := 0, addr := { ip := IpAddr.v4 [10, 0, 0, 1], port := 8080 },
                               canceled := true, script := [MPoll.ready 5] }],
                 cancellations := [], nextId := 1, assertOk := true },
      is_empty := false }
    { ip := IpAddr.v4 [10, 0, 0, 1], port := 8080 } (by decide) (by decide) 5

end Linkerd
